import Mathlib

/-!
Shallow embedding of the core of the `fatfs` FAT32 driver
(`src/fat/cache.rs`, `src/fat/table.rs`, `src/fat/dir.rs`, `src/fat/mod.rs`)
together with theorems settling the specification claims.

Machine integers are modelled as `Nat` with explicit `% 2 ^ w` at the points
where the source performs wrapping arithmetic.  Fallible operations return
`Except`/`Option`; a Rust panic (`unwrap`, `expect`, `assert!`,
`unreachable!`, `todo!`, `unimplemented!`, slice-bounds failures) is modelled
by a dedicated constructor or `none`, with the state observed at the panic
point being the state after all mutations that precede the panicking call.
-/

namespace FatSpec

/-- Sector index: `SectorIdx` in `src/fat/types.rs` is a newtype over `u64`. -/
abbrev SectorIdx := Nat

/-- Cluster index: `Cluster`/`ClusterIdx` is `u32` in the source. -/
abbrev Cluster := Nat

/-- Cache entry, from `CacheEntry` in `src/fat/cache.rs` (lines 38-46).
`last_accessed` is a `CopyCounter` wrapping a `u64`; we model it directly as
the contained counter value. -/
inductive CacheEntry where
  | Resident (s : SectorIdx) (arrIdx : Nat) (age : Nat) (lastAccessed : Nat)
  | Dirty (s : SectorIdx) (arrIdx : Nat) (age : Nat) (lastAccessed : Nat)
  | Free
  deriving DecidableEq, Repr

namespace CacheEntry

/-- Embedding of `CacheEntry::new_for_lookup` (cache.rs line 58-60). -/
def newForLookup (s : SectorIdx) : CacheEntry := .Resident s 0 0 0

/-- Embedding of `CacheEntry::is_dirty` (cache.rs lines 88-90). -/
def isDirty : CacheEntry → Bool
  | .Dirty _ _ _ _ => true
  | _ => false

/-- Embedding of `CacheEntry::get_sector_idx` (cache.rs lines 93-99). -/
def getSectorIdx : CacheEntry → Option SectorIdx
  | .Resident s _ _ _ => some s
  | .Dirty s _ _ _ => some s
  | .Free => none

/-- Embedding of `CacheEntry::get_arr_idx` (cache.rs lines 102-108). -/
def getArrIdx : CacheEntry → Option Nat
  | .Resident _ i _ _ => some i
  | .Dirty _ i _ _ => some i
  | .Free => none

/-- Embedding of `CacheEntry::mark_as_dirty` (cache.rs lines 63-73): errors on `Free`. -/
def markAsDirty : CacheEntry → Except Unit CacheEntry
  | .Resident s i g l => .ok (.Dirty s i g l)
  | .Dirty s i g l => .ok (.Dirty s i g l)
  | .Free => .error ()

/-- Embedding of `CacheEntry::mark_as_clean` (cache.rs lines 76-86): errors unless `Dirty`. -/
def markAsClean : CacheEntry → Except Unit CacheEntry
  | .Dirty s i g l => .ok (.Resident s i g l)
  | .Resident _ _ _ _ => .error ()
  | .Free => .error ()

end CacheEntry

/-- The `PartialEq` implementation for `CacheEntry` (cache.rs lines 131-155):
occupied entries compare by sector only; `Free` equals only `Free`. -/
def cacheEntryEq : CacheEntry → CacheEntry → Bool
  | .Resident a _ _ _, .Resident b _ _ _ => a == b
  | .Resident a _ _ _, .Dirty b _ _ _ => a == b
  | .Dirty a _ _ _, .Resident b _ _ _ => a == b
  | .Dirty a _ _ _, .Dirty b _ _ _ => a == b
  | .Free, .Free => true
  | .Resident _ _ _ _, .Free => false
  | .Dirty _ _ _ _, .Free => false
  | .Free, .Resident _ _ _ _ => false
  | .Free, .Dirty _ _ _ _ => false

/-- The `PartialOrd`/`Ord` implementation for `CacheEntry` (cache.rs lines
159-190): occupied entries compare by sector; an occupied entry compares
`Greater` than `Free`, and `Free` compares `Less` than an occupied entry. -/
def cacheEntryCmp : CacheEntry → CacheEntry → Ordering
  | .Resident a _ _ _, .Resident b _ _ _ => compare a b
  | .Resident a _ _ _, .Dirty b _ _ _ => compare a b
  | .Dirty a _ _ _, .Resident b _ _ _ => compare a b
  | .Dirty a _ _ _, .Dirty b _ _ _ => compare a b
  | .Free, .Free => .eq
  | .Resident _ _ _ _, .Free => .gt
  | .Dirty _ _ _ _, .Free => .gt
  | .Free, .Resident _ _ _ _ => .lt
  | .Free, .Dirty _ _ _ _ => .lt

/-- Comparison on the lookup keys extracted by `CacheEntry::get_sector_idx`:
`none` (Free) sits below every `some` (occupied), matching cache.rs lines
172-178. -/
def sectorKeyCmp : Option SectorIdx → Option SectorIdx → Ordering
  | some a, some b => compare a b
  | none, none => .eq
  | some _, none => .gt
  | none, some _ => .lt

/-- Core of Rust `slice::binary_search` as invoked by `CacheTable` (cache.rs
lines 224, 236, 256, 318): classic half-open bisection comparing
`self[mid].cmp(&target)`; `Less` moves `left` past `mid`, `Greater` lowers
`right` to `mid`, `Equal` returns `Ok(mid)`; `Err(left)` when the window
closes. -/
def binarySearchGo (arr : List CacheEntry) (target : CacheEntry)
    (left right : Nat) : Except Nat Nat :=
  if _h : left < right then
    let mid := left + (right - left) / 2
    match cacheEntryCmp (arr.getD mid .Free) target with
    | .lt => binarySearchGo arr target (mid + 1) right
    | .gt => binarySearchGo arr target left mid
    | .eq => .ok mid
  else
    .error left
termination_by right - left
decreasing_by
  · omega
  · omega

/-- Entry point of the binary search over the whole entry array. -/
def rustBinarySearch (arr : List CacheEntry) (target : CacheEntry) :
    Except Nat Nat :=
  binarySearchGo arr target 0 arr.length

/-- Cache entry table, from `CacheTable` in cache.rs (lines 194-201): a
fixed-capacity array of entries (the list length is the capacity `SIZE`)
plus the number of live entries. -/
structure CacheTable where
  table : List CacheEntry
  length : Nat
  deriving DecidableEq, Repr

namespace CacheTable

/-- Embedding of `CacheTable::capacity` (cache.rs lines 208-210). -/
def capacity (t : CacheTable) : Nat := t.table.length

/-- Embedding of `CacheTable::free_entries` (cache.rs lines 216-218). -/
def freeEntries (t : CacheTable) : Nat := t.capacity - t.length

/-- Embedding of `CacheTable::get` (cache.rs lines 220-227): binary-search with a
`new_for_lookup` probe; `Some` of the found entry on `Ok(idx)`. -/
def get (t : CacheTable) (s : SectorIdx) : Option CacheEntry :=
  match rustBinarySearch t.table (CacheEntry.newForLookup s) with
  | .ok idx => some (t.table.getD idx .Free)
  | .error _ => none

/-- Position variant of `get`, used where the source keeps the `&mut` to the
found slot. -/
def getPos (t : CacheTable) (s : SectorIdx) : Option Nat :=
  match rustBinarySearch t.table (CacheEntry.newForLookup s) with
  | .ok idx => some idx
  | .error _ => none

/-- Outcome of `CacheTable::insert`: `Ok(&mut entry)` (we record its
position), `Err(Some(_))` when the sector is already present, `Err(None)`
when out of space. -/
inductive InsertRes where
  | inserted (pos : Nat)
  | present (pos : Nat)
  | full
  deriving DecidableEq, Repr

/-- Embedding of `CacheTable::insert` (cache.rs lines 249-302).  The new entry is
`CacheEntry::new(s, idx, counter)` (Resident, `age = counter`, counter
incremented with wrapping `u64` arithmetic, `last_accessed = 0`).  `none`
models a panic: the `assert!(last == &CacheEntry::Free)`, the
`unreachable!()` on a zero-capacity table, or `copy_within(idx..length,
idx + 1)` with an invalid range.  The successful path shifts
`table[idx..length]` one slot right and stores the entry at `idx`. -/
def insert (t : CacheTable) (s : SectorIdx) (idx counter : Nat) :
    Option (InsertRes × CacheTable × Nat) :=
  let entry : CacheEntry := .Resident s idx counter 0
  let counter' := (counter + 1) % 2 ^ 64
  match rustBinarySearch t.table entry with
  | .ok pos => some (.present pos, t, counter')
  | .error pos =>
    if t.freeEntries = 0 then
      some (.full, t, counter')
    else
      match t.table.getLast? with
      | none => none
      | some last =>
        if last ≠ CacheEntry.Free then
          none
        else if pos > t.length ∨ t.length > t.table.length ∨
            t.length + 1 > t.table.length then
          none
        else
          some (.inserted pos,
            { table := t.table.take pos ++ [entry] ++
                (t.table.drop pos).take (t.length - pos) ++
                t.table.drop (t.length + 1),
              length := t.length + 1 },
            counter')

/-- Outcome of `CacheTable::remove`: `Ok(arr_idx)`, `Err(Some(_))` for a
dirty entry (we record its position), `Err(None)` when absent. -/
inductive RemoveRes where
  | removed (arrIdx : Nat)
  | dirtyAt (pos : Nat)
  | notPresent
  deriving DecidableEq, Repr

/-- Embedding of `CacheTable::remove` (cache.rs lines 311-366): binary-search for the
sector; a found `Resident` entry is removed by shifting
`table[pos+1..length]` one slot left and freeing the last live slot; a found
`Dirty` entry yields `Err(Some(_))` and leaves the table untouched; a `Free`
hit is `unreachable!()` (modelled `none`), as is `copy_within` with an
invalid range. -/
def remove (t : CacheTable) (s : SectorIdx) :
    Option (RemoveRes × CacheTable) :=
  match rustBinarySearch t.table (CacheEntry.newForLookup s) with
  | .ok pos =>
    match t.table.getD pos .Free with
    | .Resident _ arrIdx _ _ =>
      if pos + 1 > t.length ∨ t.length > t.table.length then
        none
      else
        some (.removed arrIdx,
          { table := t.table.take pos ++
              (t.table.drop (pos + 1)).take (t.length - 1 - pos) ++
              [CacheEntry.Free] ++ t.table.drop t.length,
            length := t.length - 1 })
    | .Dirty _ _ _ _ => some (.dirtyAt pos, t)
    | .Free => none
  | .error _ => some (.notPresent, t)

end CacheTable

/-- The `Youngest` eviction policy (cache.rs lines 491-496): occupied
entries compare by `age`; the shared macro arms put `Free` above every
occupied entry (cache.rs lines 434-441). -/
def youngestCmp : CacheEntry → CacheEntry → Ordering
  | .Resident _ _ a _, .Resident _ _ b _ => compare a b
  | .Resident _ _ a _, .Dirty _ _ b _ => compare a b
  | .Dirty _ _ a _, .Resident _ _ b _ => compare a b
  | .Dirty _ _ a _, .Dirty _ _ b _ => compare a b
  | .Free, .Resident _ _ _ _ => .gt
  | .Free, .Dirty _ _ _ _ => .gt
  | .Resident _ _ _ _, .Free => .lt
  | .Dirty _ _ _ _, .Free => .lt
  | .Free, .Free => .eq

/-- The `Oldest` eviction policy (cache.rs lines 501-506): reversed age
comparison, same `Free` arms. -/
def oldestCmp : CacheEntry → CacheEntry → Ordering
  | .Resident _ _ a _, .Resident _ _ b _ => (compare a b).swap
  | .Resident _ _ a _, .Dirty _ _ b _ => (compare a b).swap
  | .Dirty _ _ a _, .Resident _ _ b _ => (compare a b).swap
  | .Dirty _ _ a _, .Dirty _ _ b _ => (compare a b).swap
  | .Free, .Resident _ _ _ _ => .gt
  | .Free, .Dirty _ _ _ _ => .gt
  | .Resident _ _ _ _, .Free => .lt
  | .Dirty _ _ _ _, .Free => .lt
  | .Free, .Free => .eq

/-- The `MostRecentlyAccessed` eviction policy (cache.rs lines 513-518). -/
def mostRecentlyAccessedCmp : CacheEntry → CacheEntry → Ordering
  | .Resident _ _ _ a, .Resident _ _ _ b => compare a b
  | .Resident _ _ _ a, .Dirty _ _ _ b => compare a b
  | .Dirty _ _ _ a, .Resident _ _ _ b => compare a b
  | .Dirty _ _ _ a, .Dirty _ _ _ b => compare a b
  | .Free, .Resident _ _ _ _ => .gt
  | .Free, .Dirty _ _ _ _ => .gt
  | .Resident _ _ _ _, .Free => .lt
  | .Dirty _ _ _ _, .Free => .lt
  | .Free, .Free => .eq

/-- The `LeastRecentlyAccessed` eviction policy (cache.rs lines 520-525). -/
def leastRecentlyAccessedCmp : CacheEntry → CacheEntry → Ordering
  | .Resident _ _ _ a, .Resident _ _ _ b => (compare a b).swap
  | .Resident _ _ _ a, .Dirty _ _ _ b => (compare a b).swap
  | .Dirty _ _ _ a, .Resident _ _ _ b => (compare a b).swap
  | .Dirty _ _ _ a, .Dirty _ _ _ b => (compare a b).swap
  | .Free, .Resident _ _ _ _ => .gt
  | .Free, .Dirty _ _ _ _ => .gt
  | .Resident _ _ _ _, .Free => .lt
  | .Dirty _ _ _ _, .Free => .lt
  | .Free, .Free => .eq

/-- The `UnmodifiedFirst<Inner>` policy (cache.rs lines 527-533): `Resident`
above `Dirty`, ties broken by the inner policy, same `Free` arms. -/
def unmodifiedFirstCmp (inner : CacheEntry → CacheEntry → Ordering) :
    CacheEntry → CacheEntry → Ordering
  | .Resident _ _ _ _, .Dirty _ _ _ _ => .gt
  | .Dirty _ _ _ _, .Resident _ _ _ _ => .lt
  | .Resident s i g l, .Resident s' i' g' l' =>
    inner (.Resident s i g l) (.Resident s' i' g' l')
  | .Dirty s i g l, .Dirty s' i' g' l' =>
    inner (.Dirty s i g l) (.Dirty s' i' g' l')
  | .Free, .Resident _ _ _ _ => .gt
  | .Free, .Dirty _ _ _ _ => .gt
  | .Resident _ _ _ _, .Free => .lt
  | .Dirty _ _ _ _, .Free => .lt
  | .Free, .Free => .eq

/-- The `ModifiedFirst<Inner>` policy (cache.rs lines 557-563). -/
def modifiedFirstCmp (inner : CacheEntry → CacheEntry → Ordering) :
    CacheEntry → CacheEntry → Ordering
  | .Dirty _ _ _ _, .Resident _ _ _ _ => .gt
  | .Resident _ _ _ _, .Dirty _ _ _ _ => .lt
  | .Resident s i g l, .Resident s' i' g' l' =>
    inner (.Resident s i g l) (.Resident s' i' g' l')
  | .Dirty s i g l, .Dirty s' i' g' l' =>
    inner (.Dirty s i g l) (.Dirty s' i' g' l')
  | .Free, .Resident _ _ _ _ => .gt
  | .Free, .Dirty _ _ _ _ => .gt
  | .Resident _ _ _ _, .Free => .lt
  | .Dirty _ _ _ _, .Free => .lt
  | .Free, .Free => .eq

/-- One step of Rust `Iterator::max_by` (a `reduce`): keep the accumulator
exactly when it compares `Greater`, so ties go to the later element. -/
def maxByStep (cmp : CacheEntry → CacheEntry → Ordering)
    (acc y : CacheEntry) : CacheEntry :=
  if cmp acc y = .gt then acc else y

/-- Embedding of `EvictionPolicy::pick_entry_to_evict` (cache.rs lines 403-407):
`iter_mut().max_by(|a, b| self.compare(a, b))`, i.e. `None` on an empty
array and otherwise the last maximal element under `compare`. -/
def pickEntryToEvict (cmp : CacheEntry → CacheEntry → Ordering) :
    List CacheEntry → Option CacheEntry
  | [] => none
  | x :: xs => some (xs.foldl (maxByStep cmp) x)

/-- Shape of the macro-generated `Free` arms shared by every built-in
policy: `Free` compares `Greater` than occupied entries, occupied entries
compare `Less` than `Free`, and `Free` equals `Free`. -/
def freeTopCmp (cmp : CacheEntry → CacheEntry → Ordering) : Prop :=
  (∀ s i g l,
    cmp .Free (.Resident s i g l) = .gt ∧
    cmp .Free (.Dirty s i g l) = .gt ∧
    cmp (.Resident s i g l) .Free = .lt ∧
    cmp (.Dirty s i g l) .Free = .lt) ∧
  cmp .Free .Free = .eq

theorem maxByStep_free_left {cmp} (h : freeTopCmp cmp) (y : CacheEntry) :
    maxByStep cmp .Free y = .Free := by
  cases y with
  | Resident s i g l => simp [maxByStep, (h.1 s i g l).1]
  | Dirty s i g l => simp [maxByStep, (h.1 s i g l).2.1]
  | Free => simp [maxByStep, h.2]

theorem maxByStep_free_right {cmp} (h : freeTopCmp cmp) (a : CacheEntry) :
    maxByStep cmp a .Free = .Free := by
  cases a with
  | Resident s i g l => simp [maxByStep, (h.1 s i g l).2.2.1]
  | Dirty s i g l => simp [maxByStep, (h.1 s i g l).2.2.2]
  | Free => simp [maxByStep, h.2]

theorem foldl_maxByStep_free {cmp} (h : freeTopCmp cmp) :
    ∀ xs : List CacheEntry, xs.foldl (maxByStep cmp) .Free = .Free := by
  intro xs
  induction xs with
  | nil => rfl
  | cons y ys ih => simpa [maxByStep_free_left h] using ih

theorem foldl_maxByStep_mem (cmp) :
    ∀ (xs : List CacheEntry) (a : CacheEntry),
      xs.foldl (maxByStep cmp) a = a ∨ xs.foldl (maxByStep cmp) a ∈ xs := by
  intro xs
  induction xs with
  | nil => intro a; exact Or.inl rfl
  | cons y ys ih =>
    intro a
    have hstep : maxByStep cmp a y = a ∨ maxByStep cmp a y = y := by
      unfold maxByStep; split <;> simp
    rcases ih (maxByStep cmp a y) with h1 | h1
    · rcases hstep with h2 | h2
      · exact Or.inl (by rw [List.foldl_cons, h1, h2])
      · exact Or.inr (by rw [List.foldl_cons, h1, h2]; exact List.mem_cons_self _ _)
    · exact Or.inr (List.mem_cons_of_mem _ (by rw [List.foldl_cons]; exact h1))

theorem foldl_maxByStep_of_free_mem {cmp} (h : freeTopCmp cmp) :
    ∀ (xs : List CacheEntry) (a : CacheEntry), CacheEntry.Free ∈ xs →
      xs.foldl (maxByStep cmp) a = .Free := by
  intro xs
  induction xs with
  | nil => intro a ha; cases ha
  | cons y ys ih =>
    intro a ha
    rcases List.mem_cons.mp ha with hy | hy
    · subst hy
      rw [List.foldl_cons, maxByStep_free_right h]
      exact foldl_maxByStep_free h ys
    · rw [List.foldl_cons]
      exact ih _ hy

/-- C10: equality and the table order on `CacheEntry` depend only on whether
each operand is `Free` and, for occupied operands, on the sector index
(both factor through `get_sector_idx`); in particular a `Dirty` and a
`Resident` entry with the same sector compare equal whatever their
`arr_idx`, `age` and `last_accessed` fields, which is why the `Resident`
probe built by `new_for_lookup` locates `Dirty` entries. -/
theorem c10_cache_entry_eq_ord_sector_only :
    (∀ a b : CacheEntry,
      (cacheEntryEq a b = true ↔ a.getSectorIdx = b.getSectorIdx) ∧
      cacheEntryCmp a b = sectorKeyCmp a.getSectorIdx b.getSectorIdx) ∧
    (∀ s i g l i' g' l',
      cacheEntryEq (.Dirty s i g l) (.Resident s i' g' l') = true) ∧
    (∀ s i g l,
      cacheEntryEq (.Dirty s i g l) (CacheEntry.newForLookup s) = true) := by
  refine ⟨fun a b => ?_, ?_, ?_⟩
  · cases a <;> cases b <;>
      simp [cacheEntryEq, cacheEntryCmp, sectorKeyCmp, CacheEntry.getSectorIdx]
  · intro s i g l i' g' l'
    simp [cacheEntryEq]
  · intro s i g l
    simp [cacheEntryEq, CacheEntry.newForLookup]

/-- C2 as stated is false: the built-in policies order `Free` entries
greatest and `pick_entry_to_evict` returns the greatest entry, so on the
array `[Resident 5, Free]`, which contains an occupied entry, the selected
victim is the `Free` entry. -/
theorem c2_counterexample :
    CacheEntry.Resident 5 0 0 0 ∈
      ([.Resident 5 0 0 0, .Free] : List CacheEntry) ∧
    pickEntryToEvict youngestCmp [.Resident 5 0 0 0, .Free] =
      some CacheEntry.Free := by
  decide

/-- C2 (amended): every built-in policy gives `Free` the macro-generated
greatest-element arms; consequently `pick_entry_to_evict` never returns a
`Free` entry only when the array contains no `Free` entry at all (the
full-table case the bitmap is meant to guarantee), and whenever a `Free`
entry is present the selected victim is a `Free` entry. -/
theorem c2_pick_free_vs_occupied :
    (freeTopCmp youngestCmp ∧ freeTopCmp oldestCmp ∧
     freeTopCmp mostRecentlyAccessedCmp ∧
     freeTopCmp leastRecentlyAccessedCmp ∧
     (∀ inner, freeTopCmp (unmodifiedFirstCmp inner)) ∧
     (∀ inner, freeTopCmp (modifiedFirstCmp inner))) ∧
    (∀ cmp arr, freeTopCmp cmp → CacheEntry.Free ∉ arr → arr ≠ [] →
      ∃ v, pickEntryToEvict cmp arr = some v ∧ v ≠ CacheEntry.Free) ∧
    (∀ cmp arr, freeTopCmp cmp → CacheEntry.Free ∈ arr →
      pickEntryToEvict cmp arr = some CacheEntry.Free) := by
  refine ⟨⟨?_, ?_, ?_, ?_, ?_, ?_⟩, ?_, ?_⟩
  · exact ⟨fun s i g l => ⟨rfl, rfl, rfl, rfl⟩, rfl⟩
  · exact ⟨fun s i g l => ⟨rfl, rfl, rfl, rfl⟩, rfl⟩
  · exact ⟨fun s i g l => ⟨rfl, rfl, rfl, rfl⟩, rfl⟩
  · exact ⟨fun s i g l => ⟨rfl, rfl, rfl, rfl⟩, rfl⟩
  · exact fun _ => ⟨fun s i g l => ⟨rfl, rfl, rfl, rfl⟩, rfl⟩
  · exact fun _ => ⟨fun s i g l => ⟨rfl, rfl, rfl, rfl⟩, rfl⟩
  · intro cmp arr _h hfree hne
    match arr with
    | [] => exact absurd rfl hne
    | x :: xs =>
      refine ⟨xs.foldl (maxByStep cmp) x, rfl, ?_⟩
      rcases foldl_maxByStep_mem cmp xs x with h1 | h1
      · rw [h1]; intro hx; exact hfree (hx ▸ List.mem_cons_self _ _)
      · intro hx; exact hfree (List.mem_cons_of_mem _ (hx ▸ h1))
  · intro cmp arr h hmem
    match arr with
    | [] => cases hmem
    | x :: xs =>
      rcases List.mem_cons.mp hmem with hx | hx
      · subst hx
        simp [pickEntryToEvict, foldl_maxByStep_free h]
      · simp [pickEntryToEvict, foldl_maxByStep_of_free_mem h xs x hx]

/-- Witness for C2 (amended): on a fully occupied array the victim is the
occupied entry, and the moment a `Free` entry is present it becomes the
victim. -/
theorem c2_pick_free_vs_occupied_witness :
    (∃ v, pickEntryToEvict youngestCmp [CacheEntry.Resident 5 0 0 0] = some v ∧
      v ≠ CacheEntry.Free) ∧
    pickEntryToEvict youngestCmp [CacheEntry.Resident 7 0 0 0, CacheEntry.Free] =
      some CacheEntry.Free :=
  ⟨c2_pick_free_vs_occupied.2.1 youngestCmp [CacheEntry.Resident 5 0 0 0]
      ⟨fun s i g l => ⟨rfl, rfl, rfl, rfl⟩, rfl⟩ (by decide) (by decide),
   c2_pick_free_vs_occupied.2.2 youngestCmp
      [CacheEntry.Resident 7 0 0 0, CacheEntry.Free]
      ⟨fun s i g l => ⟨rfl, rfl, rfl, rfl⟩, rfl⟩ (by decide)⟩

/-- C4 fails on the code: the `Ord` impl for `CacheEntry` makes occupied
entries compare `Greater` than `Free` (cache.rs lines 174-178), while
`insert`/`remove` keep occupied entries in a prefix with all `Free` entries
last.  Binary search over the all-`Free` empty table therefore reports
insertion point 4 (past the end), and the very first `insert` into the
empty capacity-4 table hits `copy_within(4..0, 5)`, which panics; likewise
a lookup of sector 10 in the layout `[Resident 10, Free, Free, Free]` that
`insert` is meant to maintain misses the present entry. -/
theorem c4_insert_from_empty_breaks :
    (CacheTable.insert ⟨List.replicate 4 .Free, 0⟩ 10 0 0 = none) ∧
    (rustBinarySearch (List.replicate 4 .Free) (CacheEntry.newForLookup 10) =
      .error 4) ∧
    (CacheTable.get ⟨[.Resident 10 0 0 0, .Free, .Free, .Free], 1⟩ 10 =
      none) ∧
    (cacheEntryCmp (.Resident 10 0 0 0) .Free = .gt) := by
  refine ⟨?_, ?_, ?_, rfl⟩
  · simp [CacheTable.insert, rustBinarySearch, binarySearchGo, cacheEntryCmp,
      CacheTable.freeEntries, CacheTable.capacity]
  · simp [rustBinarySearch, binarySearchGo, cacheEntryCmp,
      CacheEntry.newForLookup]
  · simp [CacheTable.get, rustBinarySearch, binarySearchGo, cacheEntryCmp,
      CacheEntry.newForLookup]

/-- Storage write event issued through `Storage::write_sector`: the sector
index and the bytes written. -/
abbrev SWrite := SectorIdx × List Nat

/-- State of `SectorCache` (cache.rs lines 589-609): the per-slot sector
buffers (`cached_sectors`), the entry table, the slot-occupancy bitmap
(`BitMap` bits, length = cache capacity) and the shared `counter`. -/
structure SectorCache where
  buffers : List (List Nat)
  table : CacheTable
  bitmap : List Bool
  counter : Nat
  deriving DecidableEq, Repr

/-- Result of one cache operation: the resulting state (for a panic, the
state at the panic point: every mutation preceding the panicking call has
been applied), the storage writes issued, and whether the operation
panicked. -/
structure StepOut where
  state : SectorCache
  writes : List SWrite
  panicked : Bool
  deriving DecidableEq, Repr

/-- Index-tracking version of the `max_by` fold used by
`pick_entry_to_evict`: the source keeps the `&mut` of the chosen entry; we
keep its array position. -/
def pickIdxGo (cmp : CacheEntry → CacheEntry → Ordering) :
    List CacheEntry → Nat → Nat × CacheEntry → Nat × CacheEntry
  | [], _, acc => acc
  | y :: ys, j, acc =>
    pickIdxGo cmp ys (j + 1) (if cmp acc.2 y = .gt then acc else (j, y))

/-- Position returned by `pick_entry_to_evict` over the whole entry array
(`None` only when the array is empty). -/
def pickIdxToEvict (cmp : CacheEntry → CacheEntry → Ordering) :
    List CacheEntry → Option Nat
  | [] => none
  | x :: xs => some (pickIdxGo cmp xs 1 (0, x)).1

/-- Tail of `SectorCache::evict_entry` (cache.rs lines 669-671) after any
write-back: remove the victim sector from the table
(`.expect("to be able to remove clean entries")`) and clear the bitmap bit
at `sector_idx.idx()` (`.unwrap()`; out-of-range errors panic). -/
def evictFinish (c : SectorCache) (sect : SectorIdx) (w : List SWrite) :
    StepOut :=
  match CacheTable.remove c.table sect with
  | some (.removed _, t') =>
    if sect < c.bitmap.length then
      ⟨{ c with table := t', bitmap := c.bitmap.set sect false }, w, false⟩
    else
      ⟨{ c with table := t' }, w, true⟩
  | some (.dirtyAt _, _) => ⟨c, w, true⟩
  | some (.notPresent, _) => ⟨c, w, true⟩
  | none => ⟨c, w, true⟩

/-- Embedding of `SectorCache::evict_entry` (cache.rs lines 641-674): `Err` when the
table is empty (modelled as a non-panicking no-op step, the `Result` being
returned to the caller); otherwise pick the victim with the eviction
policy; a `Free` victim panics in `get_sector_idx().expect(..)`; a `Dirty`
victim is first written back (`write_sector(sector, buffer[arr_idx])`,
`.unwrap()` panicking when the storage write fails) and marked clean, and
then the victim sector is removed. -/
def evictExec (cmp : CacheEntry → CacheEntry → Ordering)
    (wOk : SectorIdx → Bool) (c : SectorCache) : StepOut :=
  if c.table.length = 0 then ⟨c, [], false⟩
  else
    match pickIdxToEvict cmp c.table.table with
    | none => ⟨c, [], true⟩
    | some pos =>
      match c.table.table.getD pos .Free with
      | .Free => ⟨c, [], true⟩
      | .Resident sect _ _ _ => evictFinish c sect []
      | .Dirty sect arrIdx g l =>
        if wOk sect then
          evictFinish
            { c with table := { c.table with
                table := c.table.table.set pos (.Resident sect arrIdx g l) } }
            sect [(sect, c.buffers.getD arrIdx [])]
        else ⟨c, [], true⟩

/-- Body of `SectorCache::flush` via `CacheTable::for_each_dirty_entry`
(cache.rs lines 369-378 and 678-692): walk the entry table in order with
its `enumerate` index `i`; for each `Dirty` entry write
`cached_sectors[i]` (the *enumerate* index, not the entry's `arr_idx`) to
the entry's sector (`.unwrap()`: a failed write panics, leaving the entry
dirty and the remainder unprocessed) and then mark it clean. -/
def flushGo (wOk : SectorIdx → Bool) (bufs : List (List Nat)) :
    List CacheEntry → Nat → List CacheEntry × List SWrite × Bool
  | [], _ => ([], [], false)
  | .Dirty s a g l :: rest, i =>
    if wOk s then
      let r := flushGo wOk bufs rest (i + 1)
      (.Resident s a g l :: r.1, (s, bufs.getD i []) :: r.2.1, r.2.2)
    else (.Dirty s a g l :: rest, [], true)
  | e :: rest, i =>
    let r := flushGo wOk bufs rest (i + 1)
    (e :: r.1, r.2.1, r.2.2)

/-- Embedding of `SectorCache::flush` (cache.rs lines 678-692). -/
def flushExec (wOk : SectorIdx → Bool) (c : SectorCache) : StepOut :=
  let r := flushGo wOk c.buffers c.table.table 0
  ⟨{ c with table := { c.table with table := r.1 } }, r.2.1, r.2.2⟩

/-- Embedding of `SectorCacheWithStorage::get`/`get_inner` (cache.rs lines 891-918) on
top of `get_sector_entry` (lines 703-798): a hit bumps the entry's
`last_accessed` through `accessed` and succeeds; a miss runs `evict_entry`
(its `Result` is discarded) and then hits the `unreachable!()` left where
the miss-fill path used to be, i.e. it panics in the state the eviction
attempt produced. -/
def getExec (cmp : CacheEntry → CacheEntry → Ordering)
    (wOk : SectorIdx → Bool) (c : SectorCache) (s : SectorIdx) : StepOut :=
  match CacheTable.getPos c.table s with
  | some pos =>
    match c.table.table.getD pos .Free with
    | .Resident s0 i0 g0 _ =>
      ⟨{ c with
          table := { c.table with
            table := c.table.table.set pos (.Resident s0 i0 g0 c.counter) },
          counter := (c.counter + 1) % 2 ^ 64 }, [], false⟩
    | .Dirty s0 i0 g0 _ =>
      ⟨{ c with
          table := { c.table with
            table := c.table.table.set pos (.Dirty s0 i0 g0 c.counter) },
          counter := (c.counter + 1) % 2 ^ 64 }, [], false⟩
    | .Free => ⟨c, [], true⟩
  | none =>
    let ev := evictExec cmp wOk c
    ⟨ev.state, ev.writes, true⟩

/-- The cache operations the claims quantify over.  `getMut` is
`SectorCacheWithStorage::get_mut` (cache.rs lines 920-922), which is
`todo!()` and panics immediately. -/
inductive CacheOp where
  | get (s : SectorIdx)
  | getMut (s : SectorIdx)
  | evict
  | flushAll
  deriving DecidableEq, Repr

/-- Execute one cache operation. -/
def execOp (cmp : CacheEntry → CacheEntry → Ordering)
    (wOk : SectorIdx → Bool) (c : SectorCache) : CacheOp → StepOut
  | .get s => getExec cmp wOk c s
  | .getMut _ => ⟨c, [], true⟩
  | .evict => evictExec cmp wOk c
  | .flushAll => flushExec wOk c

/-- Run a sequence of cache operations, recording for each executed step
the state it started from and its outcome; a panic stops the run. -/
def runSteps (cmp : CacheEntry → CacheEntry → Ordering)
    (wOk : SectorIdx → Bool) :
    SectorCache → List CacheOp → List (SectorCache × StepOut)
  | _, [] => []
  | c, op :: rest =>
    let out := execOp cmp wOk c op
    (c, out) :: (if out.panicked then [] else runSteps cmp wOk out.state rest)

/-- Some entry for sector `s` is present in the cache table. -/
def sectorPresent (c : SectorCache) (s : SectorIdx) : Prop :=
  ∃ e ∈ c.table.table, e.getSectorIdx = some s

instance (c : SectorCache) (s : SectorIdx) : Decidable (sectorPresent c s) :=
  inferInstanceAs (Decidable (∃ e ∈ c.table.table, e.getSectorIdx = some s))

theorem exists_mem_set_same_sector (l : List CacheEntry) (pos : Nat)
    (enew : CacheEntry)
    (h : enew.getSectorIdx = (l.getD pos .Free).getSectorIdx) :
    ∀ e ∈ l, ∃ f ∈ l.set pos enew, f.getSectorIdx = e.getSectorIdx := by
  intro e he
  obtain ⟨k, hk, hke⟩ := List.mem_iff_getElem.mp he
  by_cases hkp : pos = k
  · subst hkp
    have hk2 : pos < (l.set pos enew).length := by simpa using hk
    refine ⟨enew, List.mem_iff_getElem.mpr ⟨pos, hk2, List.getElem_set_self hk2⟩, ?_⟩
    rw [h, List.getD_eq_getElem l .Free hk, hke]
  · have hk2 : k < (l.set pos enew).length := by simpa using hk
    refine ⟨e, List.mem_iff_getElem.mpr ⟨k, hk2, ?_⟩, rfl⟩
    rw [List.getElem_set_ne hkp hk2, hke]

theorem remove_preserves_dirty {t : CacheTable} {s : SectorIdx} {a : Nat}
    {t' : CacheTable} (h : CacheTable.remove t s = some (.removed a, t')) :
    ∀ e ∈ t.table, e.isDirty = true → e ∈ t'.table := by
  intro e he hd
  unfold CacheTable.remove at h
  cases hbs : rustBinarySearch t.table (CacheEntry.newForLookup s) with
  | error pos => simp only [hbs] at h; simp at h
  | ok pos =>
    simp only [hbs] at h
    cases hget : t.table.getD pos .Free with
    | Dirty s0 a0 g0 l0 => simp only [hget] at h; simp at h
    | Free => simp only [hget] at h; simp at h
    | Resident s0 a0 g0 l0 =>
      simp only [hget] at h
      by_cases hcond : pos + 1 > t.length ∨ t.length > t.table.length
      · rw [if_pos hcond] at h; simp at h
      · rw [if_neg hcond] at h
        simp only [Option.some.injEq, Prod.mk.injEq] at h
        obtain ⟨-, ht'⟩ := h
        push_neg at hcond
        obtain ⟨h1, h2⟩ := hcond
        have hposlt : pos < t.table.length := by omega
        have hvpos : t.table[pos] = CacheEntry.Resident s0 a0 g0 l0 := by
          rw [← List.getD_eq_getElem t.table .Free hposlt]; exact hget
        have hene : e ≠ t.table[pos] := by
          rw [hvpos]; rintro rfl; simp [CacheEntry.isDirty] at hd
        have he2 : e ∈ t.table.take pos ∨ e ∈ t.table.drop (pos + 1) := by
          have hmm : e ∈ t.table.take pos ++ t.table.drop pos := by
            rw [List.take_append_drop]; exact he
          rcases List.mem_append.mp hmm with h3 | h3
          · exact Or.inl h3
          · rw [List.drop_eq_getElem_cons hposlt] at h3
            rcases List.mem_cons.mp h3 with h4 | h4
            · exact absurd h4 hene
            · exact Or.inr h4
        rw [← ht']
        rcases he2 with h3 | h3
        · simp only [List.mem_append]
          tauto
        · have hsp : e ∈ (t.table.drop (pos + 1)).take (t.length - 1 - pos) ++
              (t.table.drop (pos + 1)).drop (t.length - 1 - pos) := by
            rw [List.take_append_drop]; exact h3
          rcases List.mem_append.mp hsp with h4 | h4
          · simp only [List.mem_append]
            tauto
          · rw [List.drop_drop] at h4
            have heq : pos + 1 + (t.length - 1 - pos) = t.length := by omega
            rw [heq] at h4
            simp only [List.mem_append]
            tauto

theorem evictFinish_writes (c : SectorCache) (sect : SectorIdx)
    (w : List SWrite) : (evictFinish c sect w).writes = w := by
  unfold evictFinish
  split
  · split <;> rfl
  · rfl
  · rfl
  · rfl

theorem evictFinish_keeps_dirty {c : SectorCache} {sect : SectorIdx}
    {w : List SWrite} {s i g l : Nat}
    (hmem : CacheEntry.Dirty s i g l ∈ c.table.table) :
    sectorPresent (evictFinish c sect w).state s := by
  unfold evictFinish
  split
  · rename_i a t' hrem
    have hin := remove_preserves_dirty hrem _ hmem rfl
    split
    · exact ⟨_, hin, rfl⟩
    · exact ⟨_, hin, rfl⟩
  · exact ⟨_, hmem, rfl⟩
  · exact ⟨_, hmem, rfl⟩
  · exact ⟨_, hmem, rfl⟩

theorem evictExec_noDirtyLoss (cmp : CacheEntry → CacheEntry → Ordering)
    (wOk : SectorIdx → Bool) (c : SectorCache) :
    ∀ s i g l, CacheEntry.Dirty s i g l ∈ c.table.table →
      sectorPresent (evictExec cmp wOk c).state s ∨
      (s, c.buffers.getD i []) ∈ (evictExec cmp wOk c).writes := by
  intro s i g l hmem
  have hself : sectorPresent c s := ⟨_, hmem, rfl⟩
  unfold evictExec
  split
  · exact Or.inl hself
  · split
    · exact Or.inl hself
    · rename_i pos _
      split
      · exact Or.inl hself
      · exact Or.inl (evictFinish_keeps_dirty hmem)
      · rename_i sect arrIdx g0 l0 hv
        split
        · by_cases heq : CacheEntry.Dirty s i g l =
              CacheEntry.Dirty sect arrIdx g0 l0
          · right
            rw [evictFinish_writes]
            have hs : s = sect ∧ i = arrIdx := by
              injection heq with hs hi
              exact ⟨hs, hi⟩
            rw [hs.1, hs.2]
            exact List.mem_singleton.mpr rfl
          · left
            have hmem2 : CacheEntry.Dirty s i g l ∈
                c.table.table.set pos (CacheEntry.Resident sect arrIdx g0 l0) := by
              obtain ⟨k, hk, hke⟩ := List.mem_iff_getElem.mp hmem
              have hkp : pos ≠ k := by
                rintro rfl
                exact heq (by rw [← hke, ← List.getD_eq_getElem _ _ hk, hv])
              have hk2 : k <
                  (c.table.table.set pos
                    (CacheEntry.Resident sect arrIdx g0 l0)).length := by
                simpa using hk
              exact List.mem_iff_getElem.mpr
                ⟨k, hk2, by rw [List.getElem_set_ne hkp hk2, hke]⟩
            exact evictFinish_keeps_dirty hmem2
        · exact Or.inl hself

theorem flushGo_preserves (wOk : SectorIdx → Bool) (bufs : List (List Nat)) :
    ∀ (l : List CacheEntry) (i : Nat) (e : CacheEntry), e ∈ l →
      ∃ f ∈ (flushGo wOk bufs l i).1, f.getSectorIdx = e.getSectorIdx := by
  intro l
  induction l with
  | nil => intro i e he; cases he
  | cons y ys ih =>
    intro i e he
    rcases List.mem_cons.mp he with rfl | hmem
    · cases e with
      | Dirty s a g l =>
        by_cases hw : wOk s
        · refine ⟨.Resident s a g l, ?_, rfl⟩
          simp [flushGo, hw]
        · refine ⟨.Dirty s a g l, ?_, rfl⟩
          simp [flushGo, hw]
      | Resident s a g l =>
        exact ⟨.Resident s a g l, by simp [flushGo], rfl⟩
      | Free =>
        exact ⟨.Free, by simp [flushGo], rfl⟩
    · cases y with
      | Dirty s a g l =>
        by_cases hw : wOk s
        · obtain ⟨f, hf, hfs⟩ := ih (i + 1) e hmem
          exact ⟨f, by simp [flushGo, hw]; exact Or.inr hf, hfs⟩
        · exact ⟨e, by simp [flushGo, hw]; exact Or.inr hmem, rfl⟩
      | Resident s a g l =>
        obtain ⟨f, hf, hfs⟩ := ih (i + 1) e hmem
        exact ⟨f, by simp [flushGo]; exact Or.inr hf, hfs⟩
      | Free =>
        obtain ⟨f, hf, hfs⟩ := ih (i + 1) e hmem
        exact ⟨f, by simp [flushGo]; exact Or.inr hf, hfs⟩

theorem getExec_noDirtyLoss (cmp : CacheEntry → CacheEntry → Ordering)
    (wOk : SectorIdx → Bool) (c : SectorCache) (sec : SectorIdx) :
    ∀ s i g l, CacheEntry.Dirty s i g l ∈ c.table.table →
      sectorPresent (getExec cmp wOk c sec).state s ∨
      (s, c.buffers.getD i []) ∈ (getExec cmp wOk c sec).writes := by
  intro s i g l hmem
  have hself : sectorPresent c s := ⟨_, hmem, rfl⟩
  unfold getExec
  split
  · rename_i pos _
    split
    · rename_i s0 i0 g0 l0 hv
      left
      obtain ⟨f, hf, hfs⟩ := exists_mem_set_same_sector c.table.table pos
        (CacheEntry.Resident s0 i0 g0 c.counter) (by rw [hv]; rfl) _ hmem
      exact ⟨f, hf, by rw [hfs]; rfl⟩
    · rename_i s0 i0 g0 l0 hv
      left
      obtain ⟨f, hf, hfs⟩ := exists_mem_set_same_sector c.table.table pos
        (CacheEntry.Dirty s0 i0 g0 c.counter) (by rw [hv]; rfl) _ hmem
      exact ⟨f, hf, by rw [hfs]; rfl⟩
    · exact Or.inl hself
  · exact evictExec_noDirtyLoss cmp wOk c s i g l hmem

theorem execOp_noDirtyLoss (cmp : CacheEntry → CacheEntry → Ordering)
    (wOk : SectorIdx → Bool) (c : SectorCache) (op : CacheOp) :
    ∀ s i g l, CacheEntry.Dirty s i g l ∈ c.table.table →
      sectorPresent (execOp cmp wOk c op).state s ∨
      (s, c.buffers.getD i []) ∈ (execOp cmp wOk c op).writes := by
  intro s i g l hmem
  cases op with
  | get sec => exact getExec_noDirtyLoss cmp wOk c sec s i g l hmem
  | getMut sec => exact Or.inl ⟨_, hmem, rfl⟩
  | evict => exact evictExec_noDirtyLoss cmp wOk c s i g l hmem
  | flushAll =>
    left
    obtain ⟨f, hf, hfs⟩ :=
      flushGo_preserves wOk c.buffers c.table.table 0 _ hmem
    exact ⟨f, hf, by rw [hfs]; rfl⟩

/-- C1: along every sequence of cache operations (`get`, `get_mut`,
eviction, `flush`), an entry that is `Dirty` at the start of a step is
never absent from the cache table at the end of that step unless the step
wrote the buffer of the entry's slot (`arr_idx`) to its sector through the
storage port — `evict_entry` writes a `Dirty` victim back and marks it
clean before removing it — and `CacheTable::remove` itself refuses an entry
that is still `Dirty`, returning `Err(Some(_))` and leaving the table
unchanged. -/
theorem c1_dirty_removed_only_after_writeback :
    (∀ cmp wOk c0 ops pre out, (pre, out) ∈ runSteps cmp wOk c0 ops →
      ∀ s i g l, CacheEntry.Dirty s i g l ∈ pre.table.table →
        sectorPresent out.state s ∨
        (s, pre.buffers.getD i []) ∈ out.writes) ∧
    (∀ t s pos,
      rustBinarySearch t.table (CacheEntry.newForLookup s) = .ok pos →
      (t.table.getD pos .Free).isDirty = true →
      CacheTable.remove t s = some (.dirtyAt pos, t)) := by
  constructor
  · intro cmp wOk c0 ops
    induction ops generalizing c0 with
    | nil => intro pre out hmem; cases hmem
    | cons op rest ih =>
      intro pre out hmem
      rw [runSteps] at hmem
      rcases List.mem_cons.mp hmem with hhd | htl
      · injection hhd with h1 h2
        subst h1
        subst h2
        intro s i g l hd
        exact execOp_noDirtyLoss cmp wOk pre op s i g l hd
      · split at htl
        · cases htl
        · exact ih _ _ _ htl
  · intro t s pos hbs hd
    unfold CacheTable.remove
    cases hget : t.table.getD pos .Free with
    | Dirty s0 i0 g0 l0 => simp only [hbs, hget]
    | Resident s0 i0 g0 l0 => rw [hget] at hd; simp [CacheEntry.isDirty] at hd
    | Free => rw [hget] at hd; simp [CacheEntry.isDirty] at hd

/-- Concrete cache state used by the C1 witness: one dirty entry for sector
0 in slot 0 whose buffer is `[7]`. -/
def c1Cache : SectorCache := ⟨[[7]], ⟨[.Dirty 0 0 1 0], 1⟩, [true], 2⟩

/-- Outcome of evicting from `c1Cache`: the dirty victim is written back
and removed. -/
def c1Out : StepOut := ⟨⟨[[7]], ⟨[.Free], 0⟩, [false], 2⟩, [(0, [7])], false⟩

/-- Witness for C1: on the concrete one-entry cache the eviction step
writes the dirty victim back, and `remove` refuses a dirty entry. -/
theorem c1_dirty_removed_only_after_writeback_witness :
    (sectorPresent c1Out.state 0 ∨
      ((0 : Nat), c1Cache.buffers.getD 0 []) ∈ c1Out.writes) ∧
    CacheTable.remove ⟨[.Dirty 3 0 0 0], 1⟩ 3 =
      some (.dirtyAt 0, ⟨[.Dirty 3 0 0 0], 1⟩) := by
  constructor
  · have hc00 : compare (0 : Nat) 0 = Ordering.eq := by decide
    have hrun : runSteps youngestCmp (fun _ => true) c1Cache [CacheOp.evict] =
        [(c1Cache, c1Out)] := by
      simp [runSteps, execOp, evictExec, evictFinish, pickIdxToEvict,
        pickIdxGo, c1Cache, c1Out, CacheTable.remove, rustBinarySearch,
        binarySearchGo, cacheEntryCmp, CacheEntry.newForLookup, hc00]
    exact c1_dirty_removed_only_after_writeback.1 youngestCmp (fun _ => true)
      c1Cache [CacheOp.evict] c1Cache c1Out
      (by rw [hrun]; exact List.mem_singleton.mpr rfl) 0 0 1 0 (by decide)
  · have hc33 : compare (3 : Nat) 3 = Ordering.eq := by decide
    exact c1_dirty_removed_only_after_writeback.2 ⟨[.Dirty 3 0 0 0], 1⟩ 3 0
      (by simp [rustBinarySearch, binarySearchGo, cacheEntryCmp,
        CacheEntry.newForLookup, hc33])
      (by decide)

/-- Cache state exhibiting the flush slot mix-up: the `Dirty` entry for
sector 0 sits at table position 0 but owns slot 1 (buffer `[5]`); slot 0
(buffer `[9]`) belongs to the `Resident` entry for sector 1. -/
def c5Cache : SectorCache :=
  ⟨[[9], [5]], ⟨[.Dirty 0 1 5 0, .Resident 1 0 3 0], 2⟩, [true, true], 6⟩

/-- C5 fails on the code: `flush` indexes `cached_sectors` with the
`enumerate` position of `for_each_dirty_entry`, not the entry's `arr_idx`,
so on `c5Cache` it writes slot 0's buffer `[9]` to sector 0 instead of the
dirty entry's own slot-1 buffer `[5]` (it does transition the entry to
`Resident`); and a failing storage write is `.unwrap()`ed, so flush panics
(state unchanged, nothing surfaced to the caller) rather than returning the
error. -/
theorem c5_flush_wrong_slot_and_unwraps :
    (flushExec (fun _ => true) c5Cache =
      ⟨⟨[[9], [5]], ⟨[.Resident 0 1 5 0, .Resident 1 0 3 0], 2⟩,
        [true, true], 6⟩, [(0, [9])], false⟩) ∧
    ((0, c5Cache.buffers.getD 1 []) ∉ (flushExec (fun _ => true) c5Cache).writes) ∧
    ((flushExec (fun _ => false) c5Cache).panicked = true ∧
      (flushExec (fun _ => false) c5Cache).state = c5Cache) := by
  decide

/-- Tracer state of `FatEntryTracer` (table.rs lines 154-165): the cluster
the iterator is at (`None` once ended) and the last cluster recorded when
the end of the chain was hit. -/
structure TracerSt where
  currentClusterIdx : Option Cluster
  hitEnd : Option Cluster
  deriving DecidableEq, Repr

/-- Embedding of `FatEntry::END_OF_CHAIN` is `FatEntry::from(0xFFFF_FFF8)` (table.rs
line 151); `FatEntry` equality is derived field equality on the wrapped
`u32`. -/
def endOfChain : Nat := 0xFFFFFFF8

/-- One step of `Iterator for &mut FatEntryTracer` (table.rs lines
256-288): `fat c` stands for the little-endian `u32` FAT entry read for
cluster `c` through the tracer's sector buffer at
`cluster_idx_to_fat_sector_and_offset`.  The step yields
`(idx, FatEntry::from(next))`; when the entry equals `END_OF_CHAIN` the
tracer records `hit_end = Some(idx)` and clears the current cluster,
otherwise it moves to the entry value. -/
def tracerNext (fat : Cluster → Nat) (t : TracerSt) :
    Option (Cluster × Nat) × TracerSt :=
  match t.currentClusterIdx with
  | some idx =>
    let nx := fat idx
    if nx = endOfChain then (some (idx, nx), ⟨none, some idx⟩)
    else (some (idx, nx), ⟨some nx, t.hitEnd⟩)
  | none => (none, t)

/-- C3 fails on the code: `0x0FFF_FFFF` lies in the FAT32 end-of-chain
range `0x0FFF_FFF8..=0x0FFF_FFFF`, yet the tracer, which compares the
entry for equality with `0xFFFF_FFF8` only, does not transition to the
ended state on it: iteration continues into cluster `0x0FFF_FFFF` and
`hit_end` stays unset. -/
theorem c3_counterexample :
    ((0x0FFFFFF8 : Nat) ≤ 0x0FFFFFFF ∧ (0x0FFFFFFF : Nat) ≤ 0x0FFFFFFF) ∧
    tracerNext (fun _ => 0x0FFFFFFF) ⟨some 2, none⟩ =
      (some (2, 0x0FFFFFFF), ⟨some 0x0FFFFFFF, none⟩) := by
  decide

/-- C3 (amended): chain iteration yields the current cluster together with
its FAT entry, and transitions to the ended state (recording the current
cluster in `hit_end`, clearing the current cluster, and thereafter
yielding `None`) exactly when the FAT entry read for the current cluster
equals `0xFFFF_FFF8` — the single value the source compares against, not
the FAT32 range `0x0FFF_FFF8..=0x0FFF_FFFF`. -/
theorem c3_trace_ends_exactly_on_eoc :
    (∀ fat t idx, t.currentClusterIdx = some idx →
      (tracerNext fat t).1 = some (idx, fat idx) ∧
      ((tracerNext fat t).2 = ⟨none, some idx⟩ ↔ fat idx = endOfChain) ∧
      (fat idx ≠ endOfChain →
        (tracerNext fat t).2 = ⟨some (fat idx), t.hitEnd⟩)) ∧
    (∀ fat t, t.currentClusterIdx = none → tracerNext fat t = (none, t)) := by
  constructor
  · intro fat t idx h
    by_cases he : fat idx = endOfChain
    · refine ⟨?_, ?_, fun hne => absurd he hne⟩
      · simp [tracerNext, h, he]
      · simp [tracerNext, h, he]
    · refine ⟨?_, ?_, fun _ => ?_⟩
      · simp [tracerNext, h, he]
      · simp only [tracerNext, h]
        rw [if_neg he]
        constructor
        · intro hcontra
          exact absurd (congrArg TracerSt.currentClusterIdx hcontra) (by simp)
        · intro hcontra; exact absurd hcontra he
      · simp [tracerNext, h, he]
  · intro fat t h
    simp [tracerNext, h]

/-- Witness for C3 (amended): an entry equal to `0xFFFF_FFF8` ends the
chain at cluster 2, and an ended tracer keeps yielding `None`. -/
theorem c3_trace_ends_exactly_on_eoc_witness :
    (tracerNext (fun _ => endOfChain) ⟨some 2, none⟩).2 = ⟨none, some 2⟩ ∧
    tracerNext (fun _ => 0) ⟨none, some 7⟩ = (none, ⟨none, some 7⟩) :=
  ⟨(c3_trace_ends_exactly_on_eoc.1 (fun _ => endOfChain) ⟨some 2, none⟩ 2
      rfl).2.1.mpr rfl,
   c3_trace_ends_exactly_on_eoc.2 (fun _ => 0) ⟨none, some 7⟩ rfl⟩

/-- Embedding of `cluster_idx_to_fat_sector_and_offset` (table.rs lines
167-176) and `FatFs::cluster_to_table_pos_inner` (mod.rs lines 125-140):
the FAT sector and byte offset holding a cluster's 4-byte entry. -/
def clusterIdxToFatSectorAndOffset (fatStartingSector : Nat)
    (sectorSizeInBytes : Nat) (clusterIdx : Cluster) : SectorIdx × Nat :=
  let clusterEntriesPerFatSector := sectorSizeInBytes / 4
  (fatStartingSector + clusterIdx / clusterEntriesPerFatSector,
   (clusterIdx % clusterEntriesPerFatSector) * 4)

/-- The `FatFs` fields `next_free_cluster` reads (mod.rs lines 37-62 and
168-205). -/
structure FatFsSt where
  fatTableSizeInSectors : Nat
  sectorSizeInBytes : Nat
  fatStartingSector : Nat
  nextKnownFreeCluster : Cluster
  deriving DecidableEq, Repr

/-- Total cluster count used for the wrap-around, computed in
`next_free_cluster` (mod.rs lines 169-170):
`fat_table_size_in_sectors * (sector_size_in_bytes / FAT_ENTRY_SIZE)`. -/
def FatFsSt.numClusters (fs : FatFsSt) : Nat :=
  fs.fatTableSizeInSectors * (fs.sectorSizeInBytes / 4)

/-- Outcome of the `next_free_cluster` loop (mod.rs lines 181-204) under
the actual cache: the loop has no non-panicking exit.  Reading the FAT
sector of the current candidate goes through `cache.get`, which panics on
any cache miss (the `unreachable!()` left in `get_sector_entry`, cache.rs
line 727); when a FREE entry is found on a hit, the END_OF_CHAIN store
goes through `cache.get_mut`, which is `todo!()` (cache.rs lines 920-922)
and panics unconditionally; otherwise the hint advances and the loop
spins. -/
inductive ScanOut where
  | missPanic (hint : Cluster)
  | getMutPanic (hint : Cluster)
  | spinning (hint : Cluster)
  deriving DecidableEq, Repr

/-- Embedding of the `next_free_cluster` loop (mod.rs lines 181-204):
`cachedSector s` says whether sector `s` is present in the cache table (a
`cache.get` hit) and `fatVal c` is the little-endian `u32` entry a hit
would read for cluster `c`.  `fuel` bounds the unbounded loop; `spinning`
means it has not exited within `fuel` iterations. -/
def nextFreeClusterExec (fs : FatFsSt) (cachedSector : SectorIdx → Bool)
    (fatVal : Cluster → Nat) : Nat → Cluster → ScanOut
  | 0, cur => .spinning cur
  | fuel + 1, cur =>
    let sector := (clusterIdxToFatSectorAndOffset fs.fatStartingSector
      fs.sectorSizeInBytes cur).1
    if cachedSector sector then
      if fatVal cur = 0 then .getMutPanic cur
      else
        nextFreeClusterExec fs cachedSector fatVal fuel
          ((cur + 1) % fs.numClusters)
    else .missPanic cur

/-- Outcome of `grow_file` (table.rs lines 223-253) under the actual
cache: `Err(())` is returned when the tracer has not ended; otherwise
`next_free_cluster(...).unwrap()` is entered and that call panics (at a
cache miss, or in the `todo!()` `get_mut` before END_OF_CHAIN can be
stored) or spins forever — its success path, and with it everything that
follows in `grow_file` (the link write into the previously-last cluster,
the hint advance, the resumed iteration), is unreachable. -/
inductive GrowOut where
  | errNotEnded
  | panickedAtMiss (hint : Cluster)
  | panickedAtGetMut (hint : Cluster)
  | spinning (hint : Cluster)
  deriving DecidableEq, Repr

/-- Embedding of `FatEntryTracer::grow_file` (table.rs lines 223-253)
composed with `FatFs::next_free_cluster` as the program actually
behaves. -/
def growFileExec (fs : FatFsSt) (cachedSector : SectorIdx → Bool)
    (fatVal : Cluster → Nat) (t : TracerSt) (fuel : Nat) : GrowOut :=
  match t.hitEnd with
  | none => .errNotEnded
  | some _ =>
    match nextFreeClusterExec fs cachedSector fatVal fuel
        fs.nextKnownFreeCluster with
    | .missPanic c => .panickedAtMiss c
    | .getMutPanic c => .panickedAtGetMut c
    | .spinning c => .spinning c

/-- Candidate sequence of the free-cluster scan: start at the hint and
advance by `(+ 1) % n`. -/
def scanCand (n : Nat) (hint : Cluster) : Nat → Cluster
  | 0 => hint
  | j + 1 => (scanCand n hint j + 1) % n

theorem scanCand_shift (n : Nat) (hint : Cluster) :
    ∀ k, scanCand n hint (k + 1) = scanCand n ((hint + 1) % n) k := by
  intro k
  induction k with
  | zero => rfl
  | succ k ih => rw [scanCand, ih, scanCand]

/-- C6 fails on the code: with the tracer ended and the hint's FAT sector
present in the cache holding a FREE entry, `grow_file` reaches the
END_OF_CHAIN store, but that store goes through the `todo!()` `get_mut`
and panics — no cluster is allocated, no END_OF_CHAIN is stored, the
previously-last cluster is never linked, the hint never advances, and
iteration never resumes; with a cold cache the scan already panics at the
first `cache.get` miss. -/
theorem c6_counterexample :
    growFileExec ⟨1, 512, 32, 0⟩ (fun s => s == 32) (fun _ => 0)
      ⟨none, some 7⟩ 5 = .panickedAtGetMut 0 ∧
    growFileExec ⟨1, 512, 32, 0⟩ (fun _ => false) (fun _ => 0)
      ⟨none, some 7⟩ 5 = .panickedAtMiss 0 := by
  decide

/-- C6 (amended): `grow_file` returns an error exactly when the tracer has
not yet ended; when it has ended, the free-cluster scan walks the
wrap-around candidate sequence from `next_known_free_cluster` but never
completes an allocation: a cache miss while reading a candidate's FAT
sector panics in the `unreachable!()` miss path of `cache.get`, a FREE
entry found on a hit panics in the `todo!()` `cache.get_mut` before
END_OF_CHAIN can be stored, and while every candidate is cached and
non-FREE the loop spins — so `grow_file` never stores END_OF_CHAIN, never
writes the allocated index into the previously-last cluster's FAT slot,
never advances `next_known_free_cluster`, and never resumes iteration. -/
theorem c6_grow_file_cannot_allocate :
    (∀ fs cached fatVal t fuel,
      growFileExec fs cached fatVal t fuel = .errNotEnded ↔
        t.hitEnd = none) ∧
    (∀ fs cached fatVal (j fuel : Nat) hint,
      (∀ k, k < j →
        cached (clusterIdxToFatSectorAndOffset fs.fatStartingSector
          fs.sectorSizeInBytes (scanCand fs.numClusters hint k)).1 = true ∧
        fatVal (scanCand fs.numClusters hint k) ≠ 0) →
      j < fuel →
      (cached (clusterIdxToFatSectorAndOffset fs.fatStartingSector
          fs.sectorSizeInBytes (scanCand fs.numClusters hint j)).1 = false →
        nextFreeClusterExec fs cached fatVal fuel hint =
          .missPanic (scanCand fs.numClusters hint j)) ∧
      (cached (clusterIdxToFatSectorAndOffset fs.fatStartingSector
          fs.sectorSizeInBytes (scanCand fs.numClusters hint j)).1 = true →
        fatVal (scanCand fs.numClusters hint j) = 0 →
        nextFreeClusterExec fs cached fatVal fuel hint =
          .getMutPanic (scanCand fs.numClusters hint j))) ∧
    (∀ fs cached fatVal t last fuel, t.hitEnd = some last →
      (∀ c, nextFreeClusterExec fs cached fatVal fuel
          fs.nextKnownFreeCluster = .missPanic c →
        growFileExec fs cached fatVal t fuel = .panickedAtMiss c) ∧
      (∀ c, nextFreeClusterExec fs cached fatVal fuel
          fs.nextKnownFreeCluster = .getMutPanic c →
        growFileExec fs cached fatVal t fuel = .panickedAtGetMut c) ∧
      (∀ c, nextFreeClusterExec fs cached fatVal fuel
          fs.nextKnownFreeCluster = .spinning c →
        growFileExec fs cached fatVal t fuel = .spinning c)) := by
  refine ⟨?_, ?_, ?_⟩
  · intro fs cached fatVal t fuel
    constructor
    · intro h
      cases ht : t.hitEnd with
      | none => rfl
      | some last =>
        simp only [growFileExec, ht] at h
        cases hs : nextFreeClusterExec fs cached fatVal fuel
            fs.nextKnownFreeCluster with
        | missPanic c => simp only [hs] at h; cases h
        | getMutPanic c => simp only [hs] at h; cases h
        | spinning c => simp only [hs] at h; cases h
    · intro h
      simp only [growFileExec, h]
  · intro fs cached fatVal j
    induction j with
    | zero =>
      intro fuel hint _ hfuel
      match fuel, hfuel with
      | fuel + 1, _ =>
        constructor
        · intro hmiss
          have hm : cached (clusterIdxToFatSectorAndOffset
              fs.fatStartingSector fs.sectorSizeInBytes hint).1 = false :=
            hmiss
          simp [nextFreeClusterExec, hm]
          rfl
        · intro hcach hv
          have hc : cached (clusterIdxToFatSectorAndOffset
              fs.fatStartingSector fs.sectorSizeInBytes hint).1 = true :=
            hcach
          have hv0 : fatVal hint = 0 := hv
          simp [nextFreeClusterExec, hc, hv0]
          rfl
    | succ j ih =>
      intro fuel hint hmin hfuel
      match fuel, hfuel with
      | fuel + 1, hfuel =>
        obtain ⟨hc0, hv0⟩ := hmin 0 (by omega)
        have hc0' : cached (clusterIdxToFatSectorAndOffset
            fs.fatStartingSector fs.sectorSizeInBytes hint).1 = true := hc0
        have hv0' : ¬ fatVal hint = 0 := hv0
        have hmin2 : ∀ k, k < j →
            cached (clusterIdxToFatSectorAndOffset fs.fatStartingSector
              fs.sectorSizeInBytes
              (scanCand fs.numClusters ((hint + 1) % fs.numClusters) k)).1 =
              true ∧
            fatVal (scanCand fs.numClusters ((hint + 1) % fs.numClusters) k)
              ≠ 0 := by
          intro k hk
          rw [← scanCand_shift]
          exact hmin (k + 1) (by omega)
        constructor
        · intro hmiss
          rw [scanCand_shift] at hmiss
          have hrec := (ih fuel ((hint + 1) % fs.numClusters) hmin2
            (by omega)).1 hmiss
          simp [nextFreeClusterExec, hc0', hv0']
          rw [scanCand_shift]
          exact hrec
        · intro hcach hv
          rw [scanCand_shift] at hcach hv
          have hrec := (ih fuel ((hint + 1) % fs.numClusters) hmin2
            (by omega)).2 hcach hv
          simp [nextFreeClusterExec, hc0', hv0']
          rw [scanCand_shift]
          exact hrec
  · intro fs cached fatVal t last fuel ht
    refine ⟨fun c hc => ?_, fun c hc => ?_, fun c hc => ?_⟩
    · simp only [growFileExec, ht, hc]
    · simp only [growFileExec, ht, hc]
    · simp only [growFileExec, ht, hc]

/-- Witness for C6 (amended): a not-yet-ended tracer gets the error; with
the hint's FAT sector cached, the first candidate occupied and the second
FREE, the scan panics in the `todo!()` `get_mut` at the second candidate;
with a cold cache it panics at the very first read. -/
theorem c6_grow_file_cannot_allocate_witness :
    growFileExec ⟨1, 512, 32, 0⟩ (fun s => s == 32)
      (fun c => if c = 0 then 5 else 0) ⟨some 2, none⟩ 4 = .errNotEnded ∧
    nextFreeClusterExec ⟨1, 512, 32, 0⟩ (fun s => s == 32)
      (fun c => if c = 0 then 5 else 0) 4 0 = .getMutPanic 1 ∧
    nextFreeClusterExec ⟨1, 512, 32, 0⟩ (fun _ => false)
      (fun _ => 0) 4 0 = .missPanic 0 := by
  refine ⟨?_, ?_, ?_⟩
  · exact (c6_grow_file_cannot_allocate.1 ⟨1, 512, 32, 0⟩ (fun s => s == 32)
      (fun c => if c = 0 then 5 else 0) ⟨some 2, none⟩ 4).mpr rfl
  · exact (c6_grow_file_cannot_allocate.2.1 ⟨1, 512, 32, 0⟩ (fun s => s == 32)
      (fun c => if c = 0 then 5 else 0) 1 4 0 (by decide) (by decide)).2
      (by decide) (by decide)
  · exact (c6_grow_file_cannot_allocate.2.1 ⟨1, 512, 32, 0⟩ (fun _ => false)
      (fun _ => 0) 0 4 0 (by decide) (by decide)).1 (by decide)

/-- Embedding of `AttributeSet::LFN` (dir.rs lines 98-104):
`ReadOnly | Hidden | System | VolumeId = 0x0F`; `AttributeSet` equality is
equality of the attribute byte. -/
def lfnAttr : Nat := 0x0F

/-- 32-byte directory entry (dir.rs lines 191-219), abstracted to the parts
the iterator inspects: the first byte of the 8-byte name (which determines
the entry state), the attribute byte, and a `payload` standing for the
remaining bytes of the entry. -/
structure DirEntry where
  name0 : Nat
  attributes : Nat
  payload : Nat
  deriving DecidableEq, Repr

/-- Embedding of `State` of a directory entry (dir.rs lines 221-226). -/
inductive DirState where
  | Exists
  | Deleted
  | End
  deriving DecidableEq, Repr

/-- Embedding of `DirEntry::state` (dir.rs lines 229-235). -/
def DirEntry.state (e : DirEntry) : DirState :=
  if e.name0 = 0x00 then .End
  else if e.name0 = 0xE5 then .Deleted
  else .Exists

/-- Embedding of `DirEntry::empty` is `Default::default()`: the all-zero entry, whose
first name byte 0 makes it an End terminator. -/
def DirEntry.empty : DirEntry := ⟨0, 0, 0⟩

/-- Iterator state of `DirIter` (dir.rs lines 354-369). -/
structure DirIterSt where
  currentCluster : Cluster
  currentOffset : Option Nat
  hitEndOffset : Option Nat
  deriving DecidableEq, Repr

/-- Result of `DirIter::add_entry`: `Err(())`, the `unimplemented!()`
panic, or success with the new iterator state and the intra-cluster
32-byte writes `(cluster, offset, entry)` issued through the wrapper. -/
inductive AddEntryRes where
  | notEnded
  | panicked
  | added (st : DirIterSt) (writes : List (Cluster × Nat × DirEntry))
  deriving DecidableEq, Repr

/-- Embedding of `DirIter::add_entry` (dir.rs lines 398-434).  Modelled from the spec
for the write primitive only: the `FatEntry::upgrade` wrapper the source
calls is absent from src/ (table.rs has no such method), so
`t.write(off, bytes)` is taken as the §4.4 intra-cluster write of 32 bytes
at `(current_cluster, off)`.  The control flow is the source's: `Err(())`
unless `hit_end_offset` is set (it is consumed by `take()`); when
`end + 64 >= bytes_in_a_cluster` the source hits `unimplemented!()`
(growing is not implemented); otherwise write the entry at the end offset,
a fresh empty terminator at `end + 32`, and restore `current_offset` to
the insert position. -/
def addEntry (bytesInACluster : Nat) (st : DirIterSt) (entry : DirEntry) :
    AddEntryRes :=
  match st.hitEndOffset with
  | none => .notEnded
  | some endOff =>
    if endOff + 64 ≥ bytesInACluster then .panicked
    else
      .added ⟨st.currentCluster, some endOff, none⟩
        [(st.currentCluster, endOff, entry),
         (st.currentCluster, endOff + 32, DirEntry.empty)]

/-- C7 fails on the code: with 512-byte clusters and the End terminator at
offset 480, the two 32-byte writes would run off the current cluster, and
`add_entry` hits `unimplemented!()` (a panic) instead of growing the chain
by one cluster and performing the writes. -/
theorem c7_counterexample :
    480 + 64 ≥ 512 ∧
    addEntry 512 ⟨7, none, some 480⟩ ⟨65, 0x20, 0⟩ = .panicked := by
  decide

/-- C7 (amended): `add_entry` errors exactly when the iterator has not yet
reached the directory's End entry; when it has and both writes fit
(`end + 64 < bytes_in_a_cluster`), it writes the new entry at
`hit_end_offset`, a fresh End terminator at `hit_end_offset + 32`, and
restores `current_offset` to the insert position (consuming
`hit_end_offset`); when the writes would run off the current cluster
(`end + 64 ≥ bytes_in_a_cluster`) it panics with `unimplemented!()`
instead of growing the chain. -/
theorem c7_add_entry_spec :
    (∀ bic st ent, addEntry bic st ent = .notEnded ↔ st.hitEndOffset = none) ∧
    (∀ bic st ent endOff, st.hitEndOffset = some endOff →
      endOff + 64 ≥ bic → addEntry bic st ent = .panicked) ∧
    (∀ bic st ent endOff, st.hitEndOffset = some endOff →
      endOff + 64 < bic →
      addEntry bic st ent =
        .added ⟨st.currentCluster, some endOff, none⟩
          [(st.currentCluster, endOff, ent),
           (st.currentCluster, endOff + 32, DirEntry.empty)]) := by
  refine ⟨fun bic st ent => ?_, fun bic st ent endOff h1 h2 => ?_,
    fun bic st ent endOff h1 h2 => ?_⟩
  · constructor
    · intro h
      cases ht : st.hitEndOffset with
      | none => rfl
      | some endOff =>
        simp only [addEntry, ht] at h
        by_cases hc : endOff + 64 ≥ bic
        · rw [if_pos hc] at h; cases h
        · rw [if_neg hc] at h; cases h
    · intro h
      simp only [addEntry, h]
  · simp only [addEntry, h1]
    rw [if_pos h2]
  · simp only [addEntry, h1]
    rw [if_neg (show ¬ endOff + 64 ≥ bic by omega)]

/-- Witness for C7 (amended): error without End, panic at offset 480 of a
512-byte cluster, and the two writes plus offset restore at offset 96. -/
theorem c7_add_entry_spec_witness :
    addEntry 512 ⟨7, some 0, none⟩ ⟨65, 0x20, 1⟩ = .notEnded ∧
    addEntry 512 ⟨7, none, some 480⟩ ⟨66, 0x20, 2⟩ = .panicked ∧
    addEntry 512 ⟨9, none, some 96⟩ ⟨67, 0x20, 3⟩ =
      .added ⟨9, some 96, none⟩
        [(9, 96, ⟨67, 0x20, 3⟩), (9, 128, DirEntry.empty)] :=
  ⟨(c7_add_entry_spec.1 512 ⟨7, some 0, none⟩ ⟨65, 0x20, 1⟩).mpr rfl,
   c7_add_entry_spec.2.1 512 ⟨7, none, some 480⟩ ⟨66, 0x20, 2⟩ 480 rfl
     (by decide),
   c7_add_entry_spec.2.2 512 ⟨9, none, some 96⟩ ⟨67, 0x20, 3⟩ 96 rfl
     (by decide)⟩

/-- One call of `Iterator::next` for `DirIter` (dir.rs lines 447-487):
`dir c off` is the `DirEntry` decoded from the 32 bytes at offset `off` of
cluster `c` (read through the wrapper, modelled from the spec as for
`addEntry`), and `fat c` is the FAT entry of `c`, used when the iterator
steps the tracer to the next cluster (`tracer.next().unwrap().next`).  An
End entry records `hit_end_offset` and clears `current_offset` before
being yielded; an entry whose attribute byte equals `AttributeSet::LFN` is
discarded and `next` recurses — `fuel` bounds that recursion, which the
source performs unboundedly. -/
def dirNext (bic : Nat) (fat : Cluster → Cluster)
    (dir : Cluster → Nat → DirEntry) :
    Nat → DirIterSt → Option DirEntry × DirIterSt
  | 0, st => (none, st)
  | fuel + 1, st =>
    match st.currentOffset with
    | none => (none, st)
    | some off =>
      let ent := dir st.currentCluster off
      let st' : DirIterSt :=
        if ent.state = .End then ⟨st.currentCluster, none, some off⟩
        else if off + 32 ≥ bic then
          ⟨fat st.currentCluster, some ((off + 32) % bic), st.hitEndOffset⟩
        else ⟨st.currentCluster, some (off + 32), st.hitEndOffset⟩
      if ent.attributes = lfnAttr then dirNext bic fat dir fuel st'
      else (some ent, st')

/-- C8 fails on the code: an End entry (first name byte 0) whose attribute
byte equals the LFN mask is classified End (recording `hit_end_offset` and
clearing `current_offset`) but is then discarded by the LFN check, so
`next()` returns `None` — the End entry is never yielded. -/
theorem c8_counterexample :
    ((⟨0, 0x0F, 0⟩ : DirEntry).state = DirState.End) ∧
    dirNext 512 (fun _ => 0) (fun _ _ => ⟨0, 0x0F, 0⟩) 2 ⟨5, some 0, none⟩ =
      (none, ⟨5, none, some 0⟩) := by
  decide

/-- C8 (amended): the directory iterator never yields an entry whose
attribute byte equals the LFN combination; upon reading an End entry it
records `hit_end_offset` and clears `current_offset`, and yields that End
entry — unless the End entry itself carries the LFN attribute byte, in
which case it too is discarded and `next` returns `None`; once
`current_offset` is cleared every call returns `None`. -/
theorem c8_dir_iter_lfn_and_end :
    (∀ bic fat dir fuel st ent st2,
      dirNext bic fat dir fuel st = (some ent, st2) →
      ent.attributes ≠ lfnAttr) ∧
    (∀ bic fat dir fuel st off, st.currentOffset = some off →
      (dir st.currentCluster off).state = .End →
      (dir st.currentCluster off).attributes ≠ lfnAttr →
      dirNext bic fat dir (fuel + 1) st =
        (some (dir st.currentCluster off),
          ⟨st.currentCluster, none, some off⟩)) ∧
    (∀ bic fat dir fuel st off, st.currentOffset = some off →
      (dir st.currentCluster off).state = .End →
      (dir st.currentCluster off).attributes = lfnAttr →
      dirNext bic fat dir (fuel + 1 + 1) st =
        (none, ⟨st.currentCluster, none, some off⟩)) ∧
    (∀ bic fat dir fuel st, st.currentOffset = none →
      dirNext bic fat dir fuel st = (none, st)) := by
  have hnone : ∀ bic fat dir fuel (st : DirIterSt), st.currentOffset = none →
      dirNext bic fat dir fuel st = (none, st) := by
    intro bic fat dir fuel st h
    cases fuel with
    | zero => rfl
    | succ fuel => rw [dirNext, h]
  refine ⟨?_, ?_, ?_, hnone⟩
  · intro bic fat dir fuel
    induction fuel with
    | zero => intro st ent st2 h; cases h
    | succ fuel ih =>
      intro st ent st2 h
      cases hoff : st.currentOffset with
      | none =>
        rw [hnone bic fat dir (fuel + 1) st hoff] at h
        simp at h
      | some off =>
        simp only [dirNext, hoff] at h
        by_cases hl : (dir st.currentCluster off).attributes = lfnAttr
        · rw [if_pos hl] at h
          exact ih _ ent st2 h
        · rw [if_neg hl] at h
          injection h with h1 h2
          injection h1 with h1
          rw [← h1]
          exact hl
  · intro bic fat dir fuel st off hoff hend hl
    simp only [dirNext, hoff]
    rw [if_neg hl, if_pos hend]
  · intro bic fat dir fuel st off hoff hend hl
    simp only [dirNext, hoff]
    rw [if_pos hl, if_pos hend]

/-- Witness for C8 (amended): a non-LFN End entry at offset 64 is yielded
once with `hit_end_offset` recorded; an LFN-attributed End entry is
swallowed; an ended iterator yields `None`. -/
theorem c8_dir_iter_lfn_and_end_witness :
    dirNext 512 (fun _ => 0) (fun _ _ => ⟨0, 0x20, 4⟩) 1 ⟨3, some 64, none⟩ =
      (some ⟨0, 0x20, 4⟩, ⟨3, none, some 64⟩) ∧
    dirNext 512 (fun _ => 0) (fun _ _ => ⟨0, 0x0F, 4⟩) 2 ⟨3, some 64, none⟩ =
      (none, ⟨3, none, some 64⟩) ∧
    dirNext 512 (fun _ => 0) (fun _ _ => ⟨0, 0x20, 4⟩) 9 ⟨3, none, some 8⟩ =
      (none, ⟨3, none, some 8⟩) :=
  ⟨c8_dir_iter_lfn_and_end.2.1 512 (fun _ => 0) (fun _ _ => ⟨0, 0x20, 4⟩) 0
      ⟨3, some 64, none⟩ 64 rfl (by decide) (by decide),
   c8_dir_iter_lfn_and_end.2.2.1 512 (fun _ => 0) (fun _ _ => ⟨0, 0x0F, 4⟩) 0
      ⟨3, some 64, none⟩ 64 rfl (by decide) (by decide),
   c8_dir_iter_lfn_and_end.2.2.2 512 (fun _ => 0) (fun _ _ => ⟨0, 0x20, 4⟩) 9
      ⟨3, none, some 8⟩ rfl⟩

/-- The partition-geometry fields of `FatFs` used by `range_chk`
(mod.rs lines 45-49). -/
structure RangeFs where
  startingLba : Nat
  endingLba : Nat
  sectorSizeInBytes : Nat
  deriving DecidableEq, Repr

/-- Embedding of `FatFs::range_chk` (mod.rs lines 207-229): the offset must lie in
`0..sector_size`; `ending_offset = offset + len`;
`ending_sector = sector + ending_offset / sector_size + (0 if
ending_offset % sector_size == 0 else 1)`; both `sector` and
`ending_sector` must lie in the inclusive range
`starting_lba..=ending_lba`. -/
def rangeChk (fs : RangeFs) (sector : SectorIdx) (offset len : Nat) :
    Except Unit Unit :=
  if ¬ offset < fs.sectorSizeInBytes then .error ()
  else
    let endingOffset := offset + len
    let endingSector := sector + endingOffset / fs.sectorSizeInBytes +
      (if endingOffset % fs.sectorSizeInBytes = 0 then 0 else 1)
    if fs.startingLba ≤ sector ∧ sector ≤ fs.endingLba ∧
        fs.startingLba ≤ endingSector ∧ endingSector ≤ fs.endingLba then
      .ok ()
    else .error ()

/-- Byte loop of `FatFs::read` (mod.rs lines 243-252): each byte is read
from the cache at `(sector, offset)`; the offset is incremented and, when
it reaches the sector size, reset with the sector advanced.  Returns the
bytes read and the `(sector, offset)` cache accesses performed. -/
def readLoop (ssib : Nat) (mem : SectorIdx → Nat → Nat) :
    Nat → SectorIdx → Nat → List Nat × List (SectorIdx × Nat)
  | 0, _, _ => ([], [])
  | len + 1, sector, offset =>
    let b := mem sector offset
    let next : SectorIdx × Nat :=
      if offset + 1 = ssib then (sector + 1, 0) else (sector, offset + 1)
    let r := readLoop ssib mem len next.1 next.2
    (b :: r.1, (sector, offset) :: r.2)

/-- Embedding of `FatFs::read` (mod.rs lines 231-255): `range_chk` runs first and its
failure propagates through `?` before the cache is touched; on success the
byte loop runs through the cache. -/
def fsRead (fs : RangeFs) (mem : SectorIdx → Nat → Nat) (sector : SectorIdx)
    (offset len : Nat) : Except Unit (List Nat × List (SectorIdx × Nat)) :=
  match rangeChk fs sector offset len with
  | .error _ => .error ()
  | .ok _ => .ok (readLoop fs.sectorSizeInBytes mem len sector offset)

/-- C9 fails on the code: on the partition `[2048, 4095]` with 512-byte
sectors, a one-byte access at `sector = ending_lba = 4095` is rejected by
`range_chk` — the computed `ending_sector` is `4096`, one past the last
sector actually touched, and it is checked against the inclusive range —
so `FatFs::read` returns an error without touching the cache; the claim
(and the code's own `valid_sector_range`, which includes `ending_lba`)
expects it to succeed.  The access at `ending_lba + 1` does fail, a
one-byte access at `4094` passes, and a bounds-check failure makes `read`
return before any cache access. -/
theorem c9_ending_lba_access_rejected :
    (rangeChk ⟨2048, 4095, 512⟩ 4095 0 1 = .error ()) ∧
    (rangeChk ⟨2048, 4095, 512⟩ 4095 511 1 = .error ()) ∧
    (rangeChk ⟨2048, 4095, 512⟩ 4096 0 1 = .error ()) ∧
    (rangeChk ⟨2048, 4095, 512⟩ 4094 0 1 = .ok ()) ∧
    (fsRead ⟨2048, 4095, 512⟩ (fun _ _ => 0) 4095 0 1 = .error ()) ∧
    (fsRead ⟨2048, 4095, 512⟩ (fun _ _ => 0) 4094 0 1 =
      .ok ([0], [(4094, 0)])) :=
  ⟨rfl, rfl, rfl, rfl, rfl, rfl⟩

end FatSpec
